import Mathlib

/-!
A Lean model of the AncestorTree desktop-database compatibility layer.

The development shallowly embeds the repository's query-DSL-to-SQL
translation core:

* `src/app/api/desktop-db/type-coerce.ts` — SQLite ↔ PostgreSQL type
  coercion (`coerceRowFromSqlite`, `coerceDataToSqlite`, the
  `BOOLEAN_COLUMNS` / `JSON_COLUMNS` schema metadata);
* `src/app/api/desktop-db/query-builder.ts` — the filter builder
  (`buildWhere`, `parseOrCondition`) and the query executor
  (`executeQuery`, `executeSelect`, `executeInsert`, `executeUpdate`,
  `executeDelete`);
* `src/app/api/desktop-db/rpc-handlers.ts` — the `isPersonInSubtree`
  breadth-first traversal over the families/children relations.

JavaScript dynamic values crossing the SQLite boundary are modelled by the
inductive type `Value` (null, undefined, number, string, boolean, array,
object), with JavaScript truthiness as `truthy`.  Records
(`Record<string, unknown>`) are association lists `Row` in insertion
order.  External collaborators that are not part of the repository — the
`sql.js` engine, `JSON.parse`/`JSON.stringify`, `crypto.randomUUID`,
`Date`, and the error-mapper module — are modelled as parameters
(`Engine`, `Env`); engine failures are `Except` errors, mirroring thrown
exceptions.  The BFS loop of `isPersonInSubtree` is written with an
explicit step budget (`fuel`); a theorem shows the budget computed by
`fuelFor` is never exhausted, which is the termination argument that in
the source is provided by the visited set.
-/

namespace AncestorTree

/-! ## JavaScript value model -/

/-- A JavaScript runtime value as it crosses the SQLite boundary. -/
inductive Value where
  | null
  | undef
  | int (n : Int)
  | str (s : String)
  | bool (b : Bool)
  | arr (elems : List Value)
  | obj (fields : List (String × Value))

/-- A JavaScript object used as a data record: fields in insertion order. -/
abbrev Row := List (String × Value)

/-- JavaScript truthiness of a `Value`. -/
def truthy : Value → Bool
  | .null => false
  | .undef => false
  | .int n => n != 0
  | .str s => s != ""
  | .bool b => b
  | .arr _ => true
  | .obj _ => true

/-- JavaScript property read: a missing property is `undefined`. -/
def getField (r : Row) (k : String) : Value :=
  match r.lookup k with
  | some v => v
  | none => Value.undef

/-- JavaScript property assignment on an object with unique keys:
overwrite in place when present, append when absent. -/
def setField : Row → String → Value → Row
  | [], k, v => [(k, v)]
  | (k0, v0) :: rest, k, v =>
    if k0 = k then (k0, v) :: rest else (k0, v0) :: setField rest k v

/-! ## Schema metadata (`type-coerce.ts` lines 13-30, `query-builder.ts` lines 96-99) -/

/-- Columns that are BOOLEAN in PostgreSQL but INTEGER 0/1 in SQLite. -/
def BOOLEAN_COLUMNS : List (String × List String) :=
  [("people", ["is_living", "is_patrilineal"]),
   ("events", ["recurring"]),
   ("media", ["is_primary"]),
   ("achievements", ["is_featured"]),
   ("clan_articles", ["is_featured"]),
   ("cau_duong_pools", ["is_active"])]

/-- Columns that are JSONB in PostgreSQL but TEXT in SQLite. -/
def JSON_COLUMNS : List (String × List String) :=
  [("contributions", ["changes"])]

/-- Tables that have an `updated_at` column. -/
def TABLES_WITH_UPDATED_AT : List String :=
  ["people", "families", "profiles", "achievements",
   "clan_articles", "cau_duong_pools", "cau_duong_assignments"]

/-- `cols?.has(key)` where `cols` may be `undefined`. -/
def memOpt (k : String) : Option (List String) → Bool
  | some cols => cols.contains k
  | none => false

/-- `isBooleanColumn` from `type-coerce.ts`:
`BOOLEAN_COLUMNS[table]?.has(column) ?? false`. -/
def isBooleanColumn (table column : String) : Bool :=
  memOpt column (BOOLEAN_COLUMNS.lookup table)

/-! ## Type coercion (`type-coerce.ts` lines 33-76)

`JSON.parse` (which may throw: modelled by `Option`) and `JSON.stringify`
are runtime collaborators, passed in as parameters. -/

/-- `value === 1`. -/
def isIntOne : Value → Bool
  | .int 1 => true
  | _ => false

/-- `value === true`. -/
def isBoolTrue : Value → Bool
  | .bool true => true
  | _ => false

/-- `typeof value === 'object' && value !== null`. -/
def isObjectNonNull : Value → Bool
  | .arr _ => true
  | .obj _ => true
  | _ => false

/-- The per-entry conversion of `coerceRowFromSqlite`. -/
def fromSqliteVal (parse : String → Option Value)
    (boolCols jsonCols : Option (List String)) (key : String) (v : Value) : Value :=
  if memOpt key boolCols then
    Value.bool (isIntOne v || isBoolTrue v)
  else
    match v with
    | .str s =>
      if memOpt key jsonCols then
        match parse s with
        | some parsed => parsed
        | none => Value.str s
      else Value.str s
    | other => other

/-- `coerceRowFromSqlite`: convert a row from SQLite types to
PostgreSQL-like types, entry by entry. -/
def coerceRowFromSqlite (parse : String → Option Value) (table : String) (row : Row) : Row :=
  let boolCols := BOOLEAN_COLUMNS.lookup table
  let jsonCols := JSON_COLUMNS.lookup table
  row.map fun kv => (kv.1, fromSqliteVal parse boolCols jsonCols kv.1 kv.2)

/-- The per-entry conversion of `coerceDataToSqlite`. -/
def toSqliteVal (stringify : Value → String)
    (boolCols jsonCols : Option (List String)) (key : String) (v : Value) : Value :=
  if memOpt key boolCols then
    (if truthy v then Value.int 1 else Value.int 0)
  else if memOpt key jsonCols && isObjectNonNull v then
    Value.str (stringify v)
  else v

/-- `coerceDataToSqlite`: convert input data from PostgreSQL-like types to
SQLite types, entry by entry. -/
def coerceDataToSqlite (stringify : Value → String) (table : String) (data : Row) : Row :=
  let boolCols := BOOLEAN_COLUMNS.lookup table
  let jsonCols := JSON_COLUMNS.lookup table
  data.map fun kv => (kv.1, toSqliteVal stringify boolCols jsonCols kv.1 kv.2)

/-! ### Lookup lemmas for entrywise maps -/

theorem lookup_map_entries (f : String → Value → Value) (r : Row) (k : String) :
    (r.map fun kv => (kv.1, f kv.1 kv.2)).lookup k = (r.lookup k).map (f k) := by
  induction r with
  | nil => rfl
  | cons hd tl ih =>
    by_cases hk : k = hd.1
    · simp [List.lookup, hk]
    · have hbeq : (k == hd.1) = false := by
        simpa using hk
      simp [List.lookup, hbeq, ih]

theorem lookup_coerceRowFromSqlite (parse : String → Option Value)
    (table : String) (row : Row) (k : String) :
    (coerceRowFromSqlite parse table row).lookup k =
      (row.lookup k).map
        (fromSqliteVal parse (BOOLEAN_COLUMNS.lookup table) (JSON_COLUMNS.lookup table) k) := by
  unfold coerceRowFromSqlite
  exact lookup_map_entries _ row k

theorem lookup_coerceDataToSqlite (stringify : Value → String)
    (table : String) (data : Row) (k : String) :
    (coerceDataToSqlite stringify table data).lookup k =
      (data.lookup k).map
        (toSqliteVal stringify (BOOLEAN_COLUMNS.lookup table) (JSON_COLUMNS.lookup table) k) := by
  unfold coerceDataToSqlite
  exact lookup_map_entries _ data k

/-- C1 — For every table and every column declared boolean for that table:
`coerceDataToSqlite` after `coerceRowFromSqlite` is the identity on that
column whenever the row stores one of the boolean storage values `1`/`0`,
and `coerceRowFromSqlite` after `coerceDataToSqlite` preserves the logical
boolean held in that column of an input data mapping. -/
theorem boolean_column_round_trip (parse : String → Option Value)
    (stringify : Value → String) (table col : String)
    (hcol : isBooleanColumn table col = true) :
    (∀ (row : Row) (v : Value), row.lookup col = some v →
      (v = Value.int 1 ∨ v = Value.int 0) →
      (coerceDataToSqlite stringify table (coerceRowFromSqlite parse table row)).lookup col
        = some v)
    ∧ (∀ (data : Row) (b : Bool), data.lookup col = some (Value.bool b) →
      (coerceRowFromSqlite parse table (coerceDataToSqlite stringify table data)).lookup col
        = some (Value.bool b)) := by
  have hmem : memOpt col (BOOLEAN_COLUMNS.lookup table) = true := hcol
  constructor
  · intro row v hv hstorage
    rw [lookup_coerceDataToSqlite, lookup_coerceRowFromSqlite, hv]
    rcases hstorage with h1 | h0
    · subst h1
      simp [fromSqliteVal, toSqliteVal, hmem, isIntOne, isBoolTrue, truthy]
    · subst h0
      simp [fromSqliteVal, toSqliteVal, hmem, isIntOne, isBoolTrue, truthy]
  · intro data b hb
    rw [lookup_coerceRowFromSqlite, lookup_coerceDataToSqlite, hb]
    cases b <;>
      simp [fromSqliteVal, toSqliteVal, hmem, isIntOne, isBoolTrue, truthy]

/-- Witness for C1 at `people.is_living`: the storage value `1` and the
logical value `false` both round-trip. -/
theorem boolean_column_round_trip_witness :
    isBooleanColumn "people" "is_living" = true
    ∧ ([("is_living", Value.int 1)] : Row).lookup "is_living" = some (Value.int 1)
    ∧ (coerceDataToSqlite (fun _ => "") "people"
        (coerceRowFromSqlite (fun _ => none) "people"
          [("is_living", Value.int 1)])).lookup "is_living" = some (Value.int 1)
    ∧ (coerceRowFromSqlite (fun _ => none) "people"
        (coerceDataToSqlite (fun _ => "") "people"
          [("is_living", Value.bool false)])).lookup "is_living"
        = some (Value.bool false) :=
  ⟨rfl, rfl,
    (boolean_column_round_trip (fun _ => none) (fun _ => "") "people" "is_living" rfl).1
      [("is_living", Value.int 1)] (Value.int 1) rfl (Or.inl rfl),
    (boolean_column_round_trip (fun _ => none) (fun _ => "") "people" "is_living" rfl).2
      [("is_living", Value.bool false)] false rfl⟩

/-! ## String helpers

`String.split`, `String.prototype.trim` and `Array.prototype.join` of the
JavaScript runtime, implemented over character lists so that concrete
instances evaluate by `rfl`/`decide`. -/

/-- Character-level split with an accumulator holding the current segment
in reverse: structural recursion so concrete instances reduce in the
kernel. -/
def splitCharsAux (sep : Char) : List Char → List Char → List (List Char)
  | [], acc => [acc.reverse]
  | c :: cs, acc =>
    if c = sep then acc.reverse :: splitCharsAux sep cs []
    else splitCharsAux sep cs (c :: acc)

/-- `String.prototype.split` with a one-character separator, over `List Char`:
always returns at least one (possibly empty) segment. -/
def splitChars (sep : Char) (cs : List Char) : List (List Char) :=
  splitCharsAux sep cs []

/-- `s.split(sep)` for a one-character separator string. -/
def strSplit (s : String) (sep : Char) : List String :=
  (splitChars sep s.data).map fun cs => String.mk cs

/-- `String.prototype.trim`. -/
def strTrim (s : String) : String :=
  String.mk (((s.data.dropWhile Char.isWhitespace).reverse.dropWhile
    Char.isWhitespace).reverse)

/-- `Array.prototype.join(sep)`. -/
def joinSep (sep : String) : List String → String
  | [] => ""
  | [s] => s
  | s :: w :: ws => s ++ sep ++ joinSep sep (w :: ws)

/-! ## Filter descriptors and the filter builder (`query-builder.ts` lines 103-226) -/

/-- The `Filter` interface: a loosely-typed filter descriptor. -/
structure Filter where
  type : String
  column : Option String := none
  value : Value := Value.undef
  operator : Option String := none
  condition : Option String := none

/-- `"${f.column}"`: template interpolation of a possibly-undefined column
name inside double quotes. -/
def quoteIdent (c : Option String) : String :=
  "\"" ++ (match c with | some s => s | none => "undefined") ++ "\""

/-- `coerceFilterValue` (local to `buildWhere`): coerce boolean filter
values to SQLite INTEGER 0/1 when the column is boolean.  The
`column && table` guard is JavaScript truthiness on strings. -/
def coerceFilterValue (table column : Option String) (v : Value) : Value :=
  match table, column with
  | some t, some c =>
    if c != "" && t != "" && isBooleanColumn t c then
      match v with
      | .bool true => Value.int 1
      | .bool false => Value.int 0
      | other => other
    else v
  | _, _ => v

/-- The cast `f.value as unknown[]`. -/
def asArr : Value → List Value
  | .arr xs => xs
  | _ => []

/-- One parsed disjunct of the OR sub-grammar. -/
structure OrPart where
  column : String
  op : String
  value : String

/-- The operator-code table of `parseOrCondition`:
`let op = '='` then the `if`/`else if` chain. -/
def opForCode (operator : Option String) : String :=
  if operator = some "eq" then "="
  else if operator = some "neq" then "!="
  else if operator = some "gt" then ">"
  else if operator = some "gte" then ">="
  else if operator = some "lt" then "<"
  else if operator = some "lte" then "<="
  else "="

/-- The per-part body of `parseOrCondition`: trim, split on periods,
take the first segment as column, the second as operator code, and rejoin
every trailing segment (the value may itself contain periods). -/
def parseOrPart (part : String) : OrPart :=
  let segments := strSplit (strTrim part) '.'
  { column := segments.headD ""
    op := opForCode (segments.get? 1)
    value := joinSep "." (segments.drop 2) }

/-- `parseOrCondition`: split the raw condition string on commas and parse
each part. -/
def parseOrCondition (condition : String) : List OrPart :=
  (strSplit condition ',').map parseOrPart

/-- `values.map(() => '?').join(', ')`. -/
def placeholdersFor (values : List Value) : String :=
  joinSep ", " (values.map fun _ => "?")

/-- One iteration of the `for (const f of filters)` loop of `buildWhere`:
the conditions and the positional parameters this filter pushes. -/
def filterStep (table : Option String) (f : Filter) : List String × List Value :=
  match f.type with
  | "eq" =>
    ([quoteIdent f.column ++ " = ?"], [coerceFilterValue table f.column f.value])
  | "in" =>
    let values := asArr f.value
    if values.length = 0 then
      (["1 = 0"], [])
    else
      ([quoteIdent f.column ++ " IN (" ++ placeholdersFor values ++ ")"],
       values.map (coerceFilterValue table f.column))
  | "is" =>
    match f.value with
    | .null => ([quoteIdent f.column ++ " IS NULL"], [])
    | _ => ([], [])
  | "ilike" =>
    (["LOWER(" ++ quoteIdent f.column ++ ") LIKE LOWER(?)"], [f.value])
  | "not" =>
    match f.operator, f.value with
    | some "is", .null => ([quoteIdent f.column ++ " IS NOT NULL"], [])
    | _, _ =>
      ([quoteIdent f.column ++ " != ?"], [coerceFilterValue table f.column f.value])
  | "or" =>
    let orCondition := match f.condition with | some c => c | none => ""
    let orParts := parseOrCondition orCondition
    if orParts.length > 0 then
      (["(" ++ joinSep " OR "
          (orParts.map fun p => "\"" ++ p.column ++ "\" " ++ p.op ++ " ?") ++ ")"],
       orParts.map fun p => Value.str p.value)
    else ([], [])
  | _ => ([], [])

/-- `buildWhere`: AND the conditions of every filter; return the `WHERE`
clause (empty when no condition) and the positional parameters. -/
def buildWhere (filters : List Filter) (table : Option String) : String × List Value :=
  let pieces := filters.map (filterStep table)
  let conditions := (pieces.map Prod.fst).flatten
  let params := (pieces.map Prod.snd).flatten
  (if conditions.length > 0 then "WHERE " ++ joinSep " AND " conditions else "",
   params)

/-! ### C8: empty set-membership filters -/

/-- Number of `?` placeholders in a compiled condition fragment. -/
def countQMarks (s : String) : Nat :=
  (s.data.filter fun c => c == '?').length

theorem countQMarks_append (a b : String) :
    countQMarks (a ++ b) = countQMarks a + countQMarks b := by
  simp [countQMarks, String.data_append]

theorem countQMarks_joinSep_qmarks (l : List String) (hall : ∀ x ∈ l, countQMarks x = 1) :
    countQMarks (joinSep ", " l) = l.length := by
  induction l with
  | nil => decide
  | cons s rest ih =>
    cases rest with
    | nil =>
      simpa using hall s (by simp)
    | cons w ws =>
      have hs : countQMarks s = 1 := hall s (by simp)
      have hrest : countQMarks (joinSep ", " (w :: ws)) = (w :: ws).length :=
        ih fun x hx => hall x (by simp [hx])
      calc countQMarks (joinSep ", " (s :: w :: ws))
          = countQMarks (s ++ ", " ++ joinSep ", " (w :: ws)) := rfl
        _ = countQMarks s + countQMarks ", " + countQMarks (joinSep ", " (w :: ws)) := by
            rw [countQMarks_append, countQMarks_append]
        _ = (s :: w :: ws).length := by
            rw [hs, hrest]
            simp [countQMarks]
            omega

theorem countQMarks_placeholders (vs : List Value) :
    countQMarks (placeholdersFor vs) = vs.length := by
  unfold placeholdersFor
  rw [countQMarks_joinSep_qmarks]
  · simp
  · intro x hx
    rcases List.mem_map.mp hx with ⟨v, -, hv⟩
    rw [← hv]
    decide

/-- C8 — A set-membership (`in`) filter with an empty value list compiles
to the always-false condition `1 = 0` with no positional parameters (never
a malformed `IN ()`); with a non-empty list it compiles to an `IN`
condition with exactly one placeholder per value and one parameter per
value. -/
theorem in_filter_empty_always_false (table : Option String) (col : String)
    (vs : List Value) :
    (vs = [] →
      filterStep table { type := "in", column := some col, value := Value.arr vs }
        = (["1 = 0"], []))
    ∧ (vs ≠ [] →
      filterStep table { type := "in", column := some col, value := Value.arr vs }
        = ([quoteIdent (some col) ++ " IN (" ++ placeholdersFor vs ++ ")"],
           vs.map (coerceFilterValue table (some col)))
      ∧ countQMarks (placeholdersFor vs) = vs.length
      ∧ (vs.map (coerceFilterValue table (some col))).length = vs.length) := by
  constructor
  · intro hnil
    subst hnil
    rfl
  · intro hne
    refine ⟨?_, countQMarks_placeholders vs, by simp⟩
    have hlen : ¬vs.length = 0 := fun h => hne (List.length_eq_zero.mp h)
    simp only [filterStep, asArr]
    rw [if_neg hlen]

/-- Witness for C8: the empty list compiles to `1 = 0`, a two-element list
to two placeholders and two parameters. -/
theorem in_filter_empty_always_false_witness :
    filterStep (some "people") { type := "in", column := some "id", value := Value.arr [] }
      = (["1 = 0"], [])
    ∧ filterStep (some "people")
        { type := "in", column := some "id",
          value := Value.arr [Value.str "a", Value.str "b"] }
      = (["\"id\" IN (?, ?)"], [Value.str "a", Value.str "b"]) :=
  ⟨(in_filter_empty_always_false (some "people") "id" []).1 rfl,
   ((in_filter_empty_always_false (some "people") "id"
      [Value.str "a", Value.str "b"]).2 (by simp)).1.trans rfl⟩

/-! ### C9: the OR disjunction sub-grammar -/

/-- C9 — A disjunction (`or`) filter splits its raw condition on commas
and each segment on periods into (column, operator-code, value), rejoining
trailing period-separated pieces into the value; unknown operator codes
compile to `=`; the values become positional parameters with no type
coercion.  `"father_id.eq.A,mother_id.eq.B"` compiles to a parenthesized
two-term OR with `=` on both terms and parameters `["A","B"]` in order. -/
theorem or_filter_parsing (table : Option String) :
    filterStep table { type := "or", condition := some "father_id.eq.A,mother_id.eq.B" }
      = (["(\"father_id\" = ? OR \"mother_id\" = ?)"],
         [Value.str "A", Value.str "B"])
    ∧ (∀ o : Option String,
        o ∉ [some "eq", some "neq", some "gt", some "gte", some "lt", some "lte"] →
        opForCode o = "=")
    ∧ parseOrCondition "changes.eq.a.b.c"
        = [{ column := "changes", op := "=", value := "a.b.c" }]
    ∧ filterStep (some "people") { type := "or", condition := some "is_living.eq.true" }
        = (["(\"is_living\" = ?)"], [Value.str "true"]) := by
  refine ⟨rfl, ?_, rfl, rfl⟩
  intro o ho
  simp only [List.mem_cons, List.mem_singleton] at ho
  push_neg at ho
  obtain ⟨h1, h2, h3, h4, h5, h6, -⟩ := ho
  simp [opForCode, h1, h2, h3, h4, h5, h6]

/-! ## Query executor (`query-builder.ts` lines 230-392)

The `sql.js` `Database` collaborator is an `Engine`: statement execution
returns `Except EngErr`, a thrown JavaScript exception being the `error`
case.  `crypto.randomUUID` and `new Date().toISOString()` are modelled as
per-call streams in `Env`. -/

/-- A thrown JavaScript exception: an `Error` with a message, or any other
thrown value (whose message reads as `''`). -/
inductive EngErr where
  | jsError (message : String)
  | other

/-- `err instanceof Error ? err.message : ''`. -/
def msgOf : EngErr → String
  | .jsError m => m
  | .other => ""

/-- The `{message, code?}` error shape of the Supabase-like API. -/
structure ErrInfo where
  message : String
  code : Option String := none

/-- The `data` payload of a query result: `null`, a single row, or an
array of rows. -/
inductive RData where
  | null
  | row (r : Row)
  | rows (rs : List Row)

/-- The uniform `{data, error}` result shape. -/
structure QueryResult where
  data : RData
  error : Option ErrInfo

/-- The embedded engine: `prepare`/`bind`/`step*`/`free` row collection for
reads, and `run` for writes. -/
structure Engine where
  query : String → List Value → Except EngErr (List Row)
  run : String → List Value → Except EngErr Unit

/-- Runtime collaborators of the executor.  The fields `notFound` and
`sqliteError` are modelled from the spec: the Error Mapper module
(`error-mapper.ts`, imported as `notFoundError` / `sqliteError`) is not
among the provided sources; per the spec it translates engine failures
into the `{message, code?}` shape and produces a stable not-found error. -/
structure Env where
  parse : String → Option Value
  stringify : Value → String
  notFound : ErrInfo
  sqliteError : EngErr → ErrInfo
  uuidAt : Nat → String
  nowAt : Nat → String

/-- `payload.body`: absent, a single record, or an array of records. -/
inductive BodyV where
  | noBody
  | one (r : Row)
  | many (rs : List Row)

/-- One `{column, ascending}` ordering entry. -/
structure OrderSpec where
  column : String
  ascending : Bool

/-- The `QueryPayload` interface.  `method` is a string, matching the
dynamic dispatch (with its default branch) in `executeQuery`. -/
structure QueryPayload where
  table : String
  method : String
  columns : Option String := none
  body : BodyV := BodyV.noBody
  filters : List Filter := []
  order : Option (List OrderSpec) := none
  limit : Option Nat := none
  single : Bool := false
  maybeSingle : Bool := false

/-- `payload.columns === '*' ? '*' : payload.columns || '*'`. -/
def columnsSpec (c : Option String) : String :=
  match c with
  | some s => if s = "*" then "*" else (if s != "" then s else "*")
  | none => "*"

/-- JavaScript truthiness of the optional `payload.columns` string. -/
def colsTruthy : Option String → Bool
  | some s => s != ""
  | none => false

/-- `selectCols`: `payload.columns === '*' ? '*' : payload.columns` (used
on the re-read paths, where `payload.columns` is known truthy). -/
def selectColsOf (c : Option String) : String :=
  match c with
  | some s => if s = "*" then "*" else s
  | none => ""

/-- The `ORDER BY` suffix of `executeSelect` (empty when no ordering). -/
def orderClause (order : Option (List OrderSpec)) : String :=
  match order with
  | some specs =>
    if specs.length > 0 then
      " ORDER BY " ++ joinSep ", "
        (specs.map fun o => "\"" ++ o.column ++ "\" " ++ (if o.ascending then "ASC" else "DESC"))
    else ""
  | none => ""

/-- The `LIMIT` suffix of `executeSelect`: emitted only when
`payload.limit` is truthy (`if (payload.limit)`). -/
def limitClause (limit : Option Nat) : String :=
  match limit with
  | some n => if n != 0 then " LIMIT " ++ toString n else ""
  | none => ""

/-- The full SQL text compiled by `executeSelect`. -/
def buildSelectSql (payload : QueryPayload) : String :=
  "SELECT " ++ columnsSpec payload.columns ++ " FROM \"" ++ payload.table ++ "\" "
    ++ (buildWhere payload.filters (some payload.table)).1
    ++ orderClause payload.order ++ limitClause payload.limit

/-- `executeSelect`: compile, run, coerce every row to logical form, then
apply the `.single()` / `.maybeSingle()` cardinality contract. -/
def executeSelect (env : Env) (eng : Engine) (payload : QueryPayload) :
    Except EngErr QueryResult := do
  let params := (buildWhere payload.filters (some payload.table)).2
  let raw ← eng.query (buildSelectSql payload) params
  let rows := raw.map (coerceRowFromSqlite env.parse payload.table)
  if payload.single then
    match rows with
    | [] => pure { data := RData.null, error := some env.notFound }
    | r :: _ => pure { data := RData.row r, error := none }
  else if payload.maybeSingle then
    pure { data := (match rows with | [] => RData.null | r :: _ => RData.row r),
           error := none }
  else
    pure { data := RData.rows rows, error := none }

/-- The per-record preparation of `executeInsert` (lines 303-315): coerce
to storage form, then auto-generate `id` and auto-stamp `created_at` and
(for tracked tables) `updated_at` when the fields are not already truthy.
`uuid` is the `generateUUID()` sample, `now` the `new Date().toISOString()`
sample of this loop iteration. -/
def insertRecordData (stringify : Value → String) (table uuid now : String)
    (record : Row) : Row :=
  let coerced := coerceDataToSqlite stringify table record
  let coerced :=
    if truthy (getField coerced "id") then coerced
    else setField coerced "id" (Value.str uuid)
  let coerced :=
    if truthy (getField coerced "created_at") then coerced
    else setField coerced "created_at" (Value.str now)
  let coerced :=
    if TABLES_WITH_UPDATED_AT.contains table && !truthy (getField coerced "updated_at") then
      setField coerced "updated_at" (Value.str now)
    else coerced
  coerced

/-- The `for (const record of records)` loop of `executeInsert`: insert
each prepared record and, when a projection was requested, re-read it by
identifier and accumulate the coerced result. -/
def insertLoop (env : Env) (eng : Engine) (table : String) (colsOpt : Option String) :
    Nat → List Row → Except EngErr (List Row)
  | _, [] => pure []
  | i, record :: rest => do
    let coerced := insertRecordData env.stringify table (env.uuidAt i) (env.nowAt i) record
    let cols := coerced.map Prod.fst
    let sql := "INSERT INTO \"" ++ table ++ "\" ("
      ++ joinSep ", " (cols.map fun c => "\"" ++ c ++ "\"")
      ++ ") VALUES (" ++ joinSep ", " (cols.map fun _ => "?") ++ ")"
    let _ ← eng.run sql (coerced.map Prod.snd)
    let here ←
      if colsTruthy colsOpt then do
        let raw ← eng.query
          ("SELECT " ++ selectColsOf colsOpt ++ " FROM \"" ++ table ++ "\" WHERE id = ?")
          [getField coerced "id"]
        pure (match raw with
          | r :: _ => [coerceRowFromSqlite env.parse table r]
          | [] => ([] : List Row))
      else pure []
    let restRows ← insertLoop env eng table colsOpt (i + 1) rest
    pure (here ++ restRows)

/-- `executeInsert`: normalize the body to a record list, run the insert
loop, and apply the `.single()` contract to the accumulated rows. -/
def executeInsert (env : Env) (eng : Engine) (payload : QueryPayload) :
    Except EngErr QueryResult := do
  let records := match payload.body with
    | .many rs => rs
    | .one r => [r]
    | .noBody => [([] : Row)]
  let insertedRows ← insertLoop env eng payload.table payload.columns 0 records
  let fallback : QueryResult :=
    { data := if colsTruthy payload.columns then RData.rows insertedRows else RData.null,
      error := none }
  if payload.single then
    match insertedRows with
    | r :: _ => pure { data := RData.row r, error := none }
    | [] => pure fallback
  else
    pure fallback

/-- The compiled SET data of `executeUpdate` (lines 348-354): coerce the
single body to storage form and, when the table tracks `updated_at`,
unconditionally stamp it to the current time. -/
def updateSetData (stringify : Value → String) (table now : String) (rawBody : Row) : Row :=
  let data := coerceDataToSqlite stringify table rawBody
  if TABLES_WITH_UPDATED_AT.contains table then
    setField data "updated_at" (Value.str now)
  else data

/-- `executeUpdate`: compile and run `UPDATE ... SET ... <predicate>`,
then re-select when a projection was requested. -/
def executeUpdate (env : Env) (eng : Engine) (payload : QueryPayload) :
    Except EngErr QueryResult := do
  let rawBody := match payload.body with
    | .many rs => rs.headD []
    | .one r => r
    | .noBody => []
  let data := updateSetData env.stringify payload.table (env.nowAt 0) rawBody
  let wp := buildWhere payload.filters (some payload.table)
  let sql := "UPDATE \"" ++ payload.table ++ "\" SET "
    ++ joinSep ", " (data.map fun kv => "\"" ++ kv.1 ++ "\" = ?") ++ " " ++ wp.1
  let _ ← eng.run sql (data.map Prod.snd ++ wp.2)
  if colsTruthy payload.columns then do
    let raw ← eng.query
      ("SELECT " ++ selectColsOf payload.columns ++ " FROM \"" ++ payload.table ++ "\" " ++ wp.1)
      wp.2
    let rows := raw.map (coerceRowFromSqlite env.parse payload.table)
    if payload.single then
      pure { data := (match rows with | r :: _ => RData.row r | [] => RData.null),
             error := none }
    else
      pure { data := RData.rows rows, error := none }
  else
    pure { data := RData.null, error := none }

/-- `executeDelete`: compile and run `DELETE FROM ... <predicate>`; always
null data on success. -/
def executeDelete (eng : Engine) (payload : QueryPayload) :
    Except EngErr QueryResult := do
  let wp := buildWhere payload.filters (some payload.table)
  let _ ← eng.run ("DELETE FROM \"" ++ payload.table ++ "\" " ++ wp.1) wp.2
  pure { data := RData.null, error := none }

/-- `c :: cs` starts with the pattern characters. -/
def charsStartWith : List Char → List Char → Bool
  | [], _ => true
  | _ :: _, [] => false
  | p :: ps, c :: cs => p == c && charsStartWith ps cs

/-- The text contains the pattern as a contiguous run. -/
def charsInclude (pattern : List Char) : List Char → Bool
  | [] => pattern.isEmpty
  | c :: cs => charsStartWith pattern (c :: cs) || charsInclude pattern cs

/-- `String.prototype.includes` for a non-empty pattern. -/
def strIncludes (s pattern : String) : Bool :=
  charsInclude pattern.data s.data

/-- The distinguishing substring of a uniqueness-constraint violation. -/
def uniqueViolationNeedle : String := "UNIQUE constraint failed"

/-- The body of the `try` block of `executeQuery`: dispatch on the
method (with the `default` branch for an unknown method). -/
def dispatchAttempt (env : Env) (eng : Engine) (payload : QueryPayload) :
    Except EngErr QueryResult :=
  match payload.method with
  | "select" => executeSelect env eng payload
  | "insert" => executeInsert env eng payload
  | "update" => executeUpdate env eng payload
  | "delete" => executeDelete eng payload
  | m => Except.ok { data := RData.null,
                     error := some { message := "Unknown method: " ++ m } }

/-- `executeQuery`: dispatch on the method and convert any thrown failure
into the uniform result shape — the unique-violation substring yields the
canonical code `23505`, anything else is delegated to the error mapper. -/
def executeQuery (env : Env) (eng : Engine) (payload : QueryPayload) : QueryResult :=
  match dispatchAttempt env eng payload with
  | .ok r => r
  | .error err =>
    let msg := msgOf err
    if strIncludes msg uniqueViolationNeedle then
      { data := RData.null, error := some { message := msg, code := some "23505" } }
    else
      { data := RData.null, error := some (env.sqliteError err) }

/-! ### Field update lemmas -/

theorem lookup_setField_self (r : Row) (k : String) (v : Value) :
    (setField r k v).lookup k = some v := by
  induction r with
  | nil => simp [setField, List.lookup]
  | cons hd tl ih =>
    rcases hd with ⟨k0, v0⟩
    by_cases hk : k0 = k
    · subst hk
      simp [setField, List.lookup]
    · have hbeq : (k == k0) = false :=
        beq_eq_false_iff_ne.mpr fun h => hk h.symm
      simp [setField, hk, List.lookup, hbeq, ih]

theorem lookup_setField_ne (r : Row) (k k2 : String) (v : Value) (h : k2 ≠ k) :
    (setField r k v).lookup k2 = r.lookup k2 := by
  induction r with
  | nil =>
    have hbeq : (k2 == k) = false := beq_eq_false_iff_ne.mpr h
    simp [setField, List.lookup, hbeq]
  | cons hd tl ih =>
    rcases hd with ⟨k0, v0⟩
    by_cases hk : k0 = k
    · subst hk
      have hbeq : (k2 == k0) = false := beq_eq_false_iff_ne.mpr h
      simp [setField, List.lookup, hbeq]
    · simp [setField, hk, List.lookup, ih]

theorem getField_setField_self (r : Row) (k : String) (v : Value) :
    getField (setField r k v) k = v := by
  simp [getField, lookup_setField_self]

theorem getField_setField_ne (r : Row) (k k2 : String) (v : Value) (h : k2 ≠ k) :
    getField (setField r k v) k2 = getField r k2 := by
  simp [getField, lookup_setField_ne r k k2 v h]

/-- Reading another field through a conditional stamp (then-branch). -/
theorem getField_stamp (r : Row) (k k2 : String) (v : Value) (b : Bool) (h : k2 ≠ k) :
    getField (if b then setField r k v else r) k2 = getField r k2 := by
  cases b <;> simp [getField_setField_ne _ _ _ _ h]

/-- Reading another field through a conditional stamp (else-branch). -/
theorem getField_stamp2 (r : Row) (k k2 : String) (v : Value) (b : Bool) (h : k2 ≠ k) :
    getField (if b then r else setField r k v) k2 = getField r k2 := by
  cases b <;> simp [getField_setField_ne _ _ _ _ h]

/-- Field lookup through a conditional stamp (else-branch). -/
theorem lookup_stamp2 (r : Row) (k k2 : String) (v : Value) (b : Bool) (h : k2 ≠ k) :
    (if b then r else setField r k v).lookup k2 = r.lookup k2 := by
  cases b <;> simp [lookup_setField_ne _ _ _ _ h]

/-! ### C4: single / maybeSingle cardinality contract -/

/-- An engine whose reads always return the given rows. -/
def constEngine (rows : List Row) : Engine :=
  { query := fun _ _ => Except.ok rows
    run := fun _ _ => Except.ok () }

/-- C4 — Reads with "exactly one row required" (`single`) return a
not-found error and null data on zero matching rows, and the row itself
(not wrapped in a sequence) on exactly one; with "at most one row"
(`maybeSingle`, `single` unset), zero rows give null data with no error
and one or more give the first row with no error. -/
theorem select_single_maybeSingle (env : Env) (payload : QueryPayload) :
    (payload.single = true →
      executeSelect env (constEngine []) payload
        = Except.ok { data := RData.null, error := some env.notFound })
    ∧ (∀ r : Row, payload.single = true →
      executeSelect env (constEngine [r]) payload
        = Except.ok { data := RData.row (coerceRowFromSqlite env.parse payload.table r),
                      error := none })
    ∧ (payload.single = false → payload.maybeSingle = true →
      executeSelect env (constEngine []) payload
        = Except.ok { data := RData.null, error := none })
    ∧ (∀ (r : Row) (rs : List Row), payload.single = false → payload.maybeSingle = true →
      executeSelect env (constEngine (r :: rs)) payload
        = Except.ok { data := RData.row (coerceRowFromSqlite env.parse payload.table r),
                      error := none }) := by
  refine ⟨?_, ?_, ?_, ?_⟩
  · intro hs
    simp only [executeSelect, constEngine, hs]
    rfl
  · intro r hs
    simp only [executeSelect, constEngine, hs]
    rfl
  · intro hs hm
    simp only [executeSelect, constEngine, hs, hm]
    rfl
  · intro r rs hs hm
    simp only [executeSelect, constEngine, hs, hm]
    rfl

/-- A sample environment used by concrete witnesses. -/
def env0 : Env :=
  { parse := fun _ => none
    stringify := fun _ => ""
    notFound := { message := "Row not found", code := some "PGRST116" }
    sqliteError := fun e => { message := msgOf e }
    uuidAt := fun _ => "generated-uuid"
    nowAt := fun _ => "2026-02-26T00:00:00.000Z" }

/-- A sample single-row read request used by concrete witnesses. -/
def payloadSingle : QueryPayload :=
  { table := "people", method := "select", single := true }

/-- Witness for C4: a `single` read against zero rows yields null data and
the not-found error. -/
theorem select_single_maybeSingle_witness :
    payloadSingle.single = true
    ∧ executeSelect env0 (constEngine []) payloadSingle
        = Except.ok { data := RData.null, error := some env0.notFound } :=
  ⟨rfl, (select_single_maybeSingle env0 payloadSingle).1 rfl⟩

/-! ### C10: a zero limit emits no LIMIT clause -/

/-- C10 — A read whose row limit is `0` (or absent) compiles exactly the
SQL of the limitless query — no `LIMIT` clause at all, so every matching
row is returned; a `LIMIT` suffix is appended only for a truthy (nonzero)
limit. -/
theorem select_limit_zero_no_clause (payload : QueryPayload) :
    (payload.limit = some 0 ∨ payload.limit = none →
      buildSelectSql payload = buildSelectSql { payload with limit := none })
    ∧ (∀ n : Nat, n ≠ 0 → payload.limit = some n →
      buildSelectSql payload
        = buildSelectSql { payload with limit := none } ++ " LIMIT " ++ toString n) := by
  constructor
  · intro h
    rcases h with h | h <;>
      simp [buildSelectSql, limitClause, h]
  · intro n hn hl
    have hb : (n != 0) = true := by simpa using hn
    simp [buildSelectSql, limitClause, hl, hb, String.append_assoc]

/-- Witness for C10: with a zero limit the compiled SQL equals the
limitless SQL. -/
theorem select_limit_zero_no_clause_witness :
    ({ table := "people", method := "select", limit := some 0 } : QueryPayload).limit = some 0
    ∧ buildSelectSql { table := "people", method := "select", limit := some 0 }
        = buildSelectSql { table := "people", method := "select", limit := none } :=
  ⟨rfl,
   (select_limit_zero_no_clause { table := "people", method := "select", limit := some 0 }).1
     (Or.inl rfl)⟩

/-! ### C5: failure taxonomy of executeQuery -/

/-- An engine whose every statement throws the given exception. -/
def failEngine (e : EngErr) : Engine :=
  { query := fun _ _ => Except.error e
    run := fun _ _ => Except.error e }

/-- C5 — `executeQuery` never lets a thrown failure escape: it is a total
function into the uniform `{data, error}` shape for every query request.
Every failing dispatch — whatever the method — is converted so that a
failure message containing the unique-violation substring carries the
canonical code `23505`, and every other failure is delegated to the
error-mapper collaborator.  The last four conjuncts show that a failing
engine makes each method's dispatch — select, insert (with at least one
record to insert), update and delete — indeed propagate its failure. -/
theorem query_failure_taxonomy (env : Env) (payload : QueryPayload) (e : EngErr) :
    (∀ eng : Engine, dispatchAttempt env eng payload = Except.error e →
      executeQuery env eng payload =
        if strIncludes (msgOf e) uniqueViolationNeedle then
          { data := RData.null,
            error := some { message := msgOf e, code := some "23505" } }
        else
          { data := RData.null, error := some (env.sqliteError e) })
    ∧ (payload.method = "select" →
        dispatchAttempt env (failEngine e) payload = Except.error e)
    ∧ (payload.method = "insert" →
        (∀ rs, payload.body = BodyV.many rs → rs ≠ []) →
        dispatchAttempt env (failEngine e) payload = Except.error e)
    ∧ (payload.method = "update" →
        dispatchAttempt env (failEngine e) payload = Except.error e)
    ∧ (payload.method = "delete" →
        dispatchAttempt env (failEngine e) payload = Except.error e) := by
  refine ⟨?_, ?_, ?_, ?_, ?_⟩
  · intro eng h
    simp only [executeQuery, h]
  · intro hm
    rcases payload with ⟨tbl, m, cols, body, filters, ord, lim, sgl, msgl⟩
    simp only at hm
    subst hm
    rfl
  · intro hm hbody
    rcases payload with ⟨tbl, m, cols, body, filters, ord, lim, sgl, msgl⟩
    simp only at hm
    subst hm
    cases body with
    | noBody => rfl
    | one r => rfl
    | many rs =>
      cases rs with
      | nil => exact absurd rfl (hbody [] rfl)
      | cons r rest => rfl
  · intro hm
    rcases payload with ⟨tbl, m, cols, body, filters, ord, lim, sgl, msgl⟩
    simp only at hm
    subst hm
    rfl
  · intro hm
    rcases payload with ⟨tbl, m, cols, body, filters, ord, lim, sgl, msgl⟩
    simp only at hm
    subst hm
    rfl

/-- A sample single-record insert request used by concrete witnesses. -/
def payloadInsert : QueryPayload :=
  { table := "people", method := "insert", body := BodyV.one [] }

/-- Witness for C5: a uniqueness-constraint-violating insert surfaces
code `23505`, and a generic insert failure is delegated to the mapper. -/
theorem query_failure_taxonomy_witness :
    payloadInsert.method = "insert"
    ∧ executeQuery env0 (failEngine (EngErr.jsError "UNIQUE constraint failed: people.id"))
        payloadInsert
      = { data := RData.null,
          error := some { message := "UNIQUE constraint failed: people.id",
                          code := some "23505" } }
    ∧ executeQuery env0 (failEngine (EngErr.jsError "no such table: ghosts")) payloadInsert
      = { data := RData.null,
          error := some (env0.sqliteError (EngErr.jsError "no such table: ghosts")) } :=
  ⟨rfl,
   ((query_failure_taxonomy env0 payloadInsert
      (EngErr.jsError "UNIQUE constraint failed: people.id")).1
      (failEngine (EngErr.jsError "UNIQUE constraint failed: people.id"))
      ((query_failure_taxonomy env0 payloadInsert
        (EngErr.jsError "UNIQUE constraint failed: people.id")).2.2.1 rfl
        fun _ h => nomatch h)).trans (by rfl),
   ((query_failure_taxonomy env0 payloadInsert
      (EngErr.jsError "no such table: ghosts")).1
      (failEngine (EngErr.jsError "no such table: ghosts"))
      ((query_failure_taxonomy env0 payloadInsert
        (EngErr.jsError "no such table: ghosts")).2.2.1 rfl
        fun _ h => nomatch h)).trans (by rfl)⟩

/-! ### C6: insert auto-populates id and timestamps -/

/-- C6 — For every record of an insert body, after coercion to storage
form: an absent identifier is filled with the freshly generated one, an
absent creation timestamp is stamped with the current time, and on a
table tracking modification timestamps an absent `updated_at` receives
the identical timestamp string as the creation stamp of that iteration. -/
theorem insert_autofills (stringify : Value → String) (table uuid now : String)
    (record : Row) :
    ((coerceDataToSqlite stringify table record).lookup "id" = none →
      getField (insertRecordData stringify table uuid now record) "id" = Value.str uuid)
    ∧ ((coerceDataToSqlite stringify table record).lookup "created_at" = none →
      getField (insertRecordData stringify table uuid now record) "created_at"
        = Value.str now)
    ∧ (TABLES_WITH_UPDATED_AT.contains table = true →
      (coerceDataToSqlite stringify table record).lookup "updated_at" = none →
      getField (insertRecordData stringify table uuid now record) "updated_at"
        = Value.str now) := by
  set c := coerceDataToSqlite stringify table record with hc
  refine ⟨?_, ?_, ?_⟩
  · intro hid
    have h1 : ¬truthy (getField c "id") = true := by
      simp [getField, hid, truthy]
    simp only [insertRecordData, ← hc]
    rw [if_neg h1,
      getField_stamp _ _ _ _ _ (show ("id" : String) ≠ "updated_at" by decide),
      getField_stamp2 _ _ _ _ _ (show ("id" : String) ≠ "created_at" by decide),
      getField_setField_self]
  · intro hcr
    have key2 : ∀ r : Row, r.lookup "created_at" = none →
        getField (if truthy (getField r "created_at") then r
          else setField r "created_at" (Value.str now)) "created_at" = Value.str now := by
      intro r hr
      have h2 : ¬truthy (getField r "created_at") = true := by
        simp [getField, hr, truthy]
      rw [if_neg h2]
      exact getField_setField_self r "created_at" (Value.str now)
    simp only [insertRecordData, ← hc]
    rw [getField_stamp _ _ _ _ _ (show ("created_at" : String) ≠ "updated_at" by decide)]
    apply key2
    rw [lookup_stamp2 _ _ _ _ _ (show ("created_at" : String) ≠ "id" by decide)]
    exact hcr
  · intro htab hup
    have key3 : ∀ r : Row, r.lookup "updated_at" = none →
        getField (if TABLES_WITH_UPDATED_AT.contains table && !truthy (getField r "updated_at")
          then setField r "updated_at" (Value.str now) else r) "updated_at"
            = Value.str now := by
      intro r hr
      have hu : truthy (getField r "updated_at") = false := by
        simp [getField, hr, truthy]
      rw [if_pos (show (TABLES_WITH_UPDATED_AT.contains table
          && !truthy (getField r "updated_at")) = true by rw [htab, hu]; rfl)]
      exact getField_setField_self r "updated_at" (Value.str now)
    simp only [insertRecordData, ← hc]
    apply key3
    rw [lookup_stamp2 _ _ _ _ _ (show ("updated_at" : String) ≠ "created_at" by decide),
      lookup_stamp2 _ _ _ _ _ (show ("updated_at" : String) ≠ "id" by decide)]
    exact hup

/-- Witness for C6: inserting an empty record into `people` auto-fills
`id`, `created_at` and `updated_at`, the two timestamps identical. -/
theorem insert_autofills_witness :
    ((coerceDataToSqlite (fun _ => "") "people" []).lookup "id" = none
      ∧ (coerceDataToSqlite (fun _ => "") "people" []).lookup "created_at" = none
      ∧ TABLES_WITH_UPDATED_AT.contains "people" = true
      ∧ (coerceDataToSqlite (fun _ => "") "people" []).lookup "updated_at" = none)
    ∧ getField (insertRecordData (fun _ => "") "people" "u1" "t1" []) "id" = Value.str "u1"
    ∧ getField (insertRecordData (fun _ => "") "people" "u1" "t1" []) "created_at"
        = Value.str "t1"
    ∧ getField (insertRecordData (fun _ => "") "people" "u1" "t1" []) "updated_at"
        = Value.str "t1" :=
  ⟨⟨rfl, rfl, rfl, rfl⟩,
   (insert_autofills (fun _ => "") "people" "u1" "t1" []).1 rfl,
   (insert_autofills (fun _ => "") "people" "u1" "t1" []).2.1 rfl,
   (insert_autofills (fun _ => "") "people" "u1" "t1" []).2.2 rfl rfl⟩

/-! ### C7: update always overwrites the modification timestamp -/

/-- C7 — The compiled SET data of an update on a table tracking
modification timestamps carries `updated_at = now` regardless of any
caller-supplied value (last-write-wins); on an untracked table the SET
data is exactly the coerced body, so no modification timestamp is added. -/
theorem update_overwrites_updated_at (stringify : Value → String) (table now : String)
    (body : Row) :
    (TABLES_WITH_UPDATED_AT.contains table = true →
      getField (updateSetData stringify table now body) "updated_at" = Value.str now)
    ∧ (TABLES_WITH_UPDATED_AT.contains table = false →
      updateSetData stringify table now body = coerceDataToSqlite stringify table body) := by
  constructor
  · intro ht
    simp only [updateSetData, ht, if_true]
    exact getField_setField_self _ "updated_at" (Value.str now)
  · intro ht
    have hne : ¬TABLES_WITH_UPDATED_AT.contains table = true := by
      rw [ht]
      exact Bool.false_ne_true
    simp only [updateSetData]
    rw [if_neg hne]

/-- Witness for C7: updating `people` with a caller-supplied
`updated_at` still stamps the current time. -/
theorem update_overwrites_updated_at_witness :
    TABLES_WITH_UPDATED_AT.contains "people" = true
    ∧ getField (updateSetData (fun _ => "") "people" "t-now"
        [("updated_at", Value.str "t-old")]) "updated_at" = Value.str "t-now" :=
  ⟨rfl,
   (update_overwrites_updated_at (fun _ => "") "people" "t-now"
      [("updated_at", Value.str "t-old")]).1 rfl⟩

/-! ## RPC subtree traversal (`rpc-handlers.ts` lines 38-119)

The two relations queried by `isPersonInSubtree` — `families` and
`children` — are modelled as lists of records; the two prepared
statements become list filters.  The `while (queue.length > 0)` loop runs
on an explicit step budget (`fuel`); `bfsLoop_no_fuel_exhaustion` shows
the budget computed by `fuelFor` is never exhausted — the termination
argument that the visited set provides in the source. -/

/-- A record of the `families` relation. -/
structure Family where
  id : String
  father_id : Option String := none
  mother_id : Option String := none

/-- A record of the `children` relation. -/
structure ChildRec where
  family_id : String
  person_id : String

/-- The engine contents seen by the traversal. -/
structure DB where
  families : List Family
  children : List ChildRec

/-- `SELECT id FROM families WHERE father_id = ? OR mother_id = ?`. -/
def familyIdsOf (db : DB) (personId : String) : List String :=
  (db.families.filter fun f =>
    f.father_id == some personId || f.mother_id == some personId).map Family.id

/-- `SELECT person_id FROM children WHERE family_id = ?`. -/
def childrenOfFamily (db : DB) (familyId : String) : List String :=
  (db.children.filter fun ch => ch.family_id == familyId).map ChildRec.person_id

/-- All children found in one loop iteration: the concatenation of the
child lists of every family in which the person is a parent. -/
def kidsOf (db : DB) (personId : String) : List String :=
  ((familyIdsOf db personId).map (childrenOfFamily db)).flatten

/-- The inner child loop: `if (childId === targetId) return true` else
enqueue when unvisited.  `none` signals the early `return true`. -/
def pushKids (target : String) (visited : List String) :
    List String → List String → Option (List String)
  | queue, [] => some queue
  | queue, k :: ks =>
    if k = target then none
    else if k ∈ visited then pushKids target visited queue ks
    else pushKids target visited (queue ++ [k]) ks

/-- The `while (queue.length > 0)` loop of `isPersonInSubtree`, with an
explicit step budget: `none` means the budget ran out (shown impossible
for the budget of `fuelFor`), `some b` the boolean the source returns. -/
def bfsLoop (db : DB) (target : String) :
    Nat → List String → List String → Option Bool
  | 0, _, _ => none
  | fuel + 1, visited, queue =>
    match queue with
    | [] => some false
    | current :: rest =>
      if current ∈ visited then bfsLoop db target fuel visited rest
      else
        match pushKids target (current :: visited) rest (kidsOf db current) with
        | none => some true
        | some queue2 => bfsLoop db target fuel (current :: visited) queue2

/-- Every person identifier appearing as a child anywhere. -/
def allKidIds (db : DB) : List String :=
  db.children.map ChildRec.person_id

/-- The number of identifiers the loop can still visit: children and
queued identifiers not yet in the visited set. -/
def bfsMeasure (db : DB) (visited queue : List String) : Nat :=
  (((allKidIds db).toFinset ∪ queue.toFinset) \ visited.toFinset).card

/-- Bound on the number of children one iteration can enqueue. -/
def kidsBound (db : DB) : Nat :=
  db.families.length * db.children.length

/-- A sufficient step budget for the traversal: each visit retires one
unvisited identifier and enqueues at most `kidsBound db` new ones. -/
def fuelFor (db : DB) (queue : List String) : Nat :=
  1 + queue.length + bfsMeasure db [] queue * (1 + kidsBound db)

/-- `isPersonInSubtree`: true immediately when root equals target,
otherwise the BFS over the family graph. -/
def isPersonInSubtree (db : DB) (rootId targetId : String) : Bool :=
  if rootId = targetId then true
  else (bfsLoop db targetId (fuelFor db [rootId]) [] [rootId]).getD false

/-- One parent-to-child edge of the family graph: the child belongs to a
family record in which the parent appears as father or mother. -/
def familyStep (db : DB) (parent child : String) : Prop :=
  child ∈ kidsOf db parent

/-- Descendant reachability: a (possibly empty) chain of family records. -/
def reaches (db : DB) : String → String → Prop :=
  Relation.ReflTransGen (familyStep db)

/-- The spec's example graph:
`{F1: father=P1 → children [P2, P3]}, {F2: father=P2 → children [P4]}`. -/
def exampleDB : DB :=
  { families := [{ id := "F1", father_id := some "P1" },
                 { id := "F2", father_id := some "P2" }]
    children := [{ family_id := "F1", person_id := "P2" },
                 { family_id := "F1", person_id := "P3" },
                 { family_id := "F2", person_id := "P4" }] }

/-- A cyclic graph: P1's family contains P2 as child, and P2's family
erroneously points back to P1 as child. -/
def cycleDB : DB :=
  { families := [{ id := "F1", father_id := some "P1" },
                 { id := "F2", father_id := some "P2" }]
    children := [{ family_id := "F1", person_id := "P2" },
                 { family_id := "F2", person_id := "P1" }] }

/-! ### Properties of the child loop -/

theorem pushKids_eq_none_iff (target : String) (visited queue ks : List String) :
    pushKids target visited queue ks = none ↔ target ∈ ks := by
  induction ks generalizing queue with
  | nil => simp [pushKids]
  | cons k ks ih =>
    by_cases hk : k = target
    · subst hk
      simp [pushKids]
    · have hk2 : target ≠ k := fun h => hk h.symm
      by_cases hv : k ∈ visited
      · simp [pushKids, hk, hv, ih, hk2]
      · simp [pushKids, hk, hv, ih, hk2]

theorem pushKids_some_mem (target : String) (visited : List String) {queue ks queue2 : List String}
    (h : pushKids target visited queue ks = some queue2) :
    ∀ x ∈ queue2, x ∈ queue ∨ x ∈ ks := by
  induction ks generalizing queue with
  | nil =>
    simp only [pushKids, Option.some.injEq] at h
    subst h
    exact fun x hx => Or.inl hx
  | cons k ks ih =>
    intro x hx
    by_cases hk : k = target
    · subst hk
      simp [pushKids] at h
    · by_cases hv : k ∈ visited
      · rw [pushKids, if_neg hk, if_pos hv] at h
        rcases ih h x hx with h1 | h1
        · exact Or.inl h1
        · exact Or.inr (List.mem_cons_of_mem _ h1)
      · rw [pushKids, if_neg hk, if_neg hv] at h
        rcases ih h x hx with h1 | h1
        · rcases List.mem_append.mp h1 with h2 | h2
          · exact Or.inl h2
          · exact Or.inr (by simp at h2; simp [h2])
        · exact Or.inr (List.mem_cons_of_mem _ h1)

theorem pushKids_some_sub (target : String) (visited : List String) {queue ks queue2 : List String}
    (h : pushKids target visited queue ks = some queue2) :
    ∀ x ∈ queue, x ∈ queue2 := by
  induction ks generalizing queue with
  | nil =>
    simp only [pushKids, Option.some.injEq] at h
    subst h
    exact fun x hx => hx
  | cons k ks ih =>
    intro x hx
    by_cases hk : k = target
    · subst hk
      simp [pushKids] at h
    · by_cases hv : k ∈ visited
      · rw [pushKids, if_neg hk, if_pos hv] at h
        exact ih h x hx
      · rw [pushKids, if_neg hk, if_neg hv] at h
        exact ih h x (List.mem_append.mpr (Or.inl hx))

theorem pushKids_covers (target : String) (visited : List String) {queue ks queue2 : List String}
    (h : pushKids target visited queue ks = some queue2) :
    ∀ k ∈ ks, k ∈ visited ∨ k ∈ queue2 := by
  induction ks generalizing queue with
  | nil => simp
  | cons k0 ks ih =>
    intro k hk
    by_cases hk0 : k0 = target
    · subst hk0
      simp [pushKids] at h
    · by_cases hv : k0 ∈ visited
      · rw [pushKids, if_neg hk0, if_pos hv] at h
        rcases List.mem_cons.mp hk with h1 | h1
        · exact Or.inl (h1 ▸ hv)
        · exact ih h k h1
      · rw [pushKids, if_neg hk0, if_neg hv] at h
        rcases List.mem_cons.mp hk with h1 | h1
        · subst h1
          exact Or.inr (pushKids_some_sub target visited h k (by simp))
        · exact ih h k h1

theorem pushKids_some_length (target : String) (visited : List String)
    {queue ks queue2 : List String}
    (h : pushKids target visited queue ks = some queue2) :
    queue2.length ≤ queue.length + ks.length := by
  induction ks generalizing queue with
  | nil =>
    simp only [pushKids, Option.some.injEq] at h
    subst h
    simp
  | cons k ks ih =>
    by_cases hk : k = target
    · subst hk
      simp [pushKids] at h
    · by_cases hv : k ∈ visited
      · rw [pushKids, if_neg hk, if_pos hv] at h
        have := ih h
        simp only [List.length_cons]
        omega
      · rw [pushKids, if_neg hk, if_neg hv] at h
        have := ih h
        simp only [List.length_append, List.length_cons, List.length_nil] at this ⊢
        omega

/-! ### Properties of the child collection -/

theorem kidsOf_sub_allKids (db : DB) (p x : String) (hx : x ∈ kidsOf db p) :
    x ∈ allKidIds db := by
  unfold kidsOf at hx
  rcases List.mem_flatten.mp hx with ⟨l, hl, hxl⟩
  rcases List.mem_map.mp hl with ⟨fid, -, hfid⟩
  rw [← hfid] at hxl
  unfold childrenOfFamily at hxl
  rcases List.mem_map.mp hxl with ⟨ch, hch, hchx⟩
  exact List.mem_map.mpr ⟨ch, (List.mem_filter.mp hch).1, hchx⟩

theorem sum_le_length_mul {α : Type} (l : List α) (f : α → Nat) (c : Nat)
    (h : ∀ x ∈ l, f x ≤ c) : (l.map f).sum ≤ l.length * c := by
  induction l with
  | nil => simp
  | cons a l ih =>
    simp only [List.map_cons, List.sum_cons, List.length_cons]
    have h1 := h a (by simp)
    have h2 := ih fun x hx => h x (by simp [hx])
    calc f a + (l.map f).sum ≤ c + l.length * c := Nat.add_le_add h1 h2
      _ = (l.length + 1) * c := by ring

theorem kidsOf_length_le (db : DB) (p : String) :
    (kidsOf db p).length ≤ kidsBound db := by
  unfold kidsOf kidsBound
  rw [List.length_flatten]
  have h1 : ∀ l ∈ (familyIdsOf db p).map (childrenOfFamily db),
      l.length ≤ db.children.length := by
    intro l hl
    rcases List.mem_map.mp hl with ⟨fid, -, hfid⟩
    rw [← hfid]
    unfold childrenOfFamily
    rw [List.length_map]
    exact List.length_filter_le _ _
  have h2 : (familyIdsOf db p).length ≤ db.families.length := by
    unfold familyIdsOf
    rw [List.length_map]
    exact List.length_filter_le _ _
  calc (((familyIdsOf db p).map (childrenOfFamily db)).map List.length).sum
      ≤ ((familyIdsOf db p).map (childrenOfFamily db)).length * db.children.length :=
        sum_le_length_mul _ _ _ h1
    _ ≤ db.families.length * db.children.length := by
        rw [List.length_map]
        exact Nat.mul_le_mul_right _ h2

/-! ### Soundness: a true answer comes from a real descendant chain -/

theorem bfsLoop_true_reaches (db : DB) (target : String) :
    ∀ (fuel : Nat) (visited queue : List String),
    bfsLoop db target fuel visited queue = some true →
    ∃ q ∈ queue, reaches db q target := by
  intro fuel
  induction fuel with
  | zero =>
    intro visited queue h
    simp [bfsLoop] at h
  | succ fuel ih =>
    intro visited queue h
    cases queue with
    | nil => simp [bfsLoop] at h
    | cons current rest =>
      simp only [bfsLoop] at h
      by_cases hv : current ∈ visited
      · rw [if_pos hv] at h
        rcases ih visited rest h with ⟨q, hq, hr⟩
        exact ⟨q, List.mem_cons_of_mem _ hq, hr⟩
      · rw [if_neg hv] at h
        rcases hp : pushKids target (current :: visited) rest (kidsOf db current)
            with _ | queue2
        · have ht : target ∈ kidsOf db current :=
            (pushKids_eq_none_iff _ _ _ _).mp hp
          exact ⟨current, List.mem_cons_self _ _, Relation.ReflTransGen.single ht⟩
        · rw [hp] at h
          rcases ih (current :: visited) queue2 h with ⟨q, hq, hr⟩
          rcases pushKids_some_mem target (current :: visited) hp q hq with h1 | h1
          · exact ⟨q, List.mem_cons_of_mem _ h1, hr⟩
          · exact ⟨current, List.mem_cons_self _ _, Relation.ReflTransGen.head h1 hr⟩

/-! ### Completeness: a false answer excludes every descendant chain -/

theorem bfsLoop_false_not_reaches (db : DB) (target : String) :
    ∀ (fuel : Nat) (visited queue : List String),
    bfsLoop db target fuel visited queue = some false →
    target ∉ visited → target ∉ queue →
    (∀ v ∈ visited, ∀ k ∈ kidsOf db v, k ∈ visited ∨ k ∈ queue) →
    ∀ z, (z ∈ visited ∨ z ∈ queue) → ¬reaches db z target := by
  intro fuel
  induction fuel with
  | zero =>
    intro visited queue h
    simp [bfsLoop] at h
  | succ fuel ih =>
    intro visited queue h hTv hTq hK z hz hreach
    cases queue with
    | nil =>
      have hcl : ∀ v ∈ visited, ∀ k ∈ kidsOf db v, k ∈ visited := by
        intro v hv k hk
        rcases hK v hv k hk with h1 | h1
        · exact h1
        · simp at h1
      have hzv : z ∈ visited := by
        rcases hz with h1 | h1
        · exact h1
        · simp at h1
      have key : ∀ a, reaches db a target → a ∈ visited → target ∈ visited := by
        intro a ha
        induction ha using Relation.ReflTransGen.head_induction_on with
        | refl => exact fun hmem => hmem
        | head hstep _ ihh => exact fun hmem => ihh (hcl _ hmem _ hstep)
      exact hTv (key z hreach hzv)
    | cons current rest =>
      simp only [bfsLoop] at h
      by_cases hv : current ∈ visited
      · rw [if_pos hv] at h
        refine ih visited rest h hTv (fun hc => hTq (List.mem_cons_of_mem _ hc)) ?_ z ?_ hreach
        · intro v hvv k hk
          rcases hK v hvv k hk with h1 | h1
          · exact Or.inl h1
          · rcases List.mem_cons.mp h1 with h2 | h2
            · exact Or.inl (h2 ▸ hv)
            · exact Or.inr h2
        · rcases hz with h1 | h1
          · exact Or.inl h1
          · rcases List.mem_cons.mp h1 with h2 | h2
            · exact Or.inl (h2 ▸ hv)
            · exact Or.inr h2
      · rw [if_neg hv] at h
        rcases hp : pushKids target (current :: visited) rest (kidsOf db current)
            with _ | queue2
        · rw [hp] at h
          simp at h
        · rw [hp] at h
          have hTv2 : target ∉ current :: visited := by
            intro hc
            rcases List.mem_cons.mp hc with h1 | h1
            · exact hTq (h1 ▸ List.mem_cons_self _ _)
            · exact hTv h1
          have hTq2 : target ∉ queue2 := by
            intro hc
            rcases pushKids_some_mem target (current :: visited) hp target hc with h1 | h1
            · exact hTq (List.mem_cons_of_mem _ h1)
            · have hnone :=
                (pushKids_eq_none_iff target (current :: visited) rest
                  (kidsOf db current)).mpr h1
              rw [hp] at hnone
              exact Option.noConfusion hnone
          have hK2 : ∀ v ∈ current :: visited, ∀ k ∈ kidsOf db v,
              k ∈ current :: visited ∨ k ∈ queue2 := by
            intro v hvv k hk
            rcases List.mem_cons.mp hvv with h1 | h1
            · rw [h1] at hk
              rcases pushKids_covers target (current :: visited) hp k hk with h2 | h2
              · exact Or.inl h2
              · exact Or.inr h2
            · rcases hK v h1 k hk with h2 | h2
              · exact Or.inl (List.mem_cons_of_mem _ h2)
              · rcases List.mem_cons.mp h2 with h3 | h3
                · exact Or.inl (h3 ▸ List.mem_cons_self _ _)
                · exact Or.inr (pushKids_some_sub target (current :: visited) hp k h3)
          refine ih (current :: visited) queue2 h hTv2 hTq2 hK2 z ?_ hreach
          rcases hz with h1 | h1
          · exact Or.inl (List.mem_cons_of_mem _ h1)
          · rcases List.mem_cons.mp h1 with h2 | h2
            · exact Or.inl (h2 ▸ List.mem_cons_self _ _)
            · exact Or.inr (pushKids_some_sub target (current :: visited) hp z h2)

/-! ### Termination: the step budget of `fuelFor` is never exhausted -/

theorem bfsMeasure_skip_le (db : DB) (visited : List String) (current : String)
    (rest : List String) :
    bfsMeasure db visited rest ≤ bfsMeasure db visited (current :: rest) := by
  apply Finset.card_le_card
  intro x hx
  simp only [Finset.mem_sdiff, Finset.mem_union, List.mem_toFinset] at hx ⊢
  rcases hx with ⟨hin, hnv⟩
  refine ⟨?_, hnv⟩
  rcases hin with h | h
  · exact Or.inl h
  · exact Or.inr (List.mem_cons_of_mem _ h)

theorem bfsMeasure_visit_lt (db : DB) (target : String) (visited : List String)
    (current : String) (rest queue2 : List String)
    (hv : current ∉ visited)
    (hp : pushKids target (current :: visited) rest (kidsOf db current) = some queue2) :
    bfsMeasure db (current :: visited) queue2 < bfsMeasure db visited (current :: rest) := by
  apply Finset.card_lt_card
  have hsub : ((allKidIds db).toFinset ∪ queue2.toFinset) \ (current :: visited).toFinset
      ⊆ ((allKidIds db).toFinset ∪ (current :: rest).toFinset) \ visited.toFinset := by
    intro x hx
    simp only [Finset.mem_sdiff, Finset.mem_union, List.mem_toFinset, List.mem_cons] at hx ⊢
    rcases hx with ⟨hin, hnv⟩
    push_neg at hnv
    refine ⟨?_, hnv.2⟩
    rcases hin with h | h
    · exact Or.inl h
    · rcases pushKids_some_mem target (current :: visited) hp x h with h1 | h1
      · exact Or.inr (Or.inr h1)
      · exact Or.inl (kidsOf_sub_allKids db current x h1)
  rw [Finset.ssubset_iff_of_subset hsub]
  refine ⟨current, ?_, ?_⟩
  · simp [hv]
  · simp

theorem bfsLoop_no_fuel_exhaustion (db : DB) (target : String) :
    ∀ (fuel : Nat) (visited queue : List String),
    1 + queue.length + bfsMeasure db visited queue * (1 + kidsBound db) ≤ fuel →
    (bfsLoop db target fuel visited queue).isSome = true := by
  intro fuel
  induction fuel with
  | zero =>
    intro visited queue h
    exact absurd h (by omega)
  | succ fuel ih =>
    intro visited queue hfuel
    cases queue with
    | nil => simp [bfsLoop]
    | cons current rest =>
      simp only [bfsLoop]
      by_cases hv : current ∈ visited
      · rw [if_pos hv]
        apply ih
        have hm : bfsMeasure db visited rest * (1 + kidsBound db)
            ≤ bfsMeasure db visited (current :: rest) * (1 + kidsBound db) :=
          Nat.mul_le_mul_right _ (bfsMeasure_skip_le db visited current rest)
        simp only [List.length_cons] at hfuel
        omega
      · rw [if_neg hv]
        rcases hp : pushKids target (current :: visited) rest (kidsOf db current)
            with _ | queue2
        · simp
        · apply ih
          have hlt : bfsMeasure db (current :: visited) queue2 + 1
              ≤ bfsMeasure db visited (current :: rest) :=
            Nat.succ_le_of_lt
              (bfsMeasure_visit_lt db target visited current rest queue2 hv hp)
          have hq2 : queue2.length ≤ rest.length + kidsBound db := by
            have h1 := pushKids_some_length target (current :: visited) hp
            have h2 := kidsOf_length_le db current
            omega
          have e1 : (bfsMeasure db (current :: visited) queue2 + 1) * (1 + kidsBound db)
              ≤ bfsMeasure db visited (current :: rest) * (1 + kidsBound db) :=
            Nat.mul_le_mul_right _ hlt
          have e2 : (bfsMeasure db (current :: visited) queue2 + 1) * (1 + kidsBound db)
              = bfsMeasure db (current :: visited) queue2 * (1 + kidsBound db)
                + (1 + kidsBound db) := by
            ring
          simp only [List.length_cons] at hfuel
          omega

/-! ### The traversal answers exactly descendant reachability -/

theorem isPersonInSubtree_iff_reaches (db : DB) (root target : String) :
    isPersonInSubtree db root target = true ↔ reaches db root target := by
  by_cases hrt : root = target
  · subst hrt
    have htrue : isPersonInSubtree db root root = true := by
      rw [isPersonInSubtree, if_pos rfl]
    simp only [htrue, true_iff]
    exact Relation.ReflTransGen.refl
  · have hsome : (bfsLoop db target (fuelFor db [root]) [] [root]).isSome = true :=
      bfsLoop_no_fuel_exhaustion db target (fuelFor db [root]) [] [root] (le_refl _)
    rw [isPersonInSubtree, if_neg hrt]
    rcases hb : bfsLoop db target (fuelFor db [root]) [] [root] with _ | b
    · rw [hb] at hsome
      simp at hsome
    · cases b
      · simp only [Option.getD_some]
        constructor
        · intro h
          cases h
        · intro hreach
          exfalso
          refine bfsLoop_false_not_reaches db target (fuelFor db [root]) [] [root] hb
            ?_ ?_ ?_ root (Or.inr (by simp)) hreach
          · simp
          · simp only [List.mem_singleton]
            exact fun h => hrt h.symm
          · intro v hv
            simp at hv
      · simp only [Option.getD_some]
        constructor
        · intro _
          rcases bfsLoop_true_reaches db target (fuelFor db [root]) [] [root] hb
            with ⟨q, hq, hr⟩
          rw [List.mem_singleton] at hq
          rw [← hq]
          exact hr
        · intro _
          trivial

/-- A reachable endpoint is the start itself or some child record's
person identifier. -/
theorem reaches_imp_eq_or_kid (db : DB) (a b : String) (h : reaches db a b) :
    a = b ∨ b ∈ allKidIds db := by
  induction h with
  | refl => exact Or.inl rfl
  | tail _ hstep _ => exact Or.inr (kidsOf_sub_allKids db _ _ hstep)

/-- C2 — `is_person_in_subtree(root, target)` is true when root equals
target (for every database, so no engine contents are consulted), and
otherwise true exactly when target is reachable from root through a chain
of family records (parent appears as `father_id` or `mother_id`, then any
`person_id` listed as a child).  On the spec's example graph:
`(P1, P4)` is true, `(P3, P4)` is false, `(P1, P1)` is true. -/
theorem subtree_membership_correct (db : DB) (root target : String) :
    (root = target → isPersonInSubtree db root target = true)
    ∧ (isPersonInSubtree db root target = true ↔ reaches db root target)
    ∧ isPersonInSubtree exampleDB "P1" "P4" = true
    ∧ isPersonInSubtree exampleDB "P3" "P4" = false
    ∧ isPersonInSubtree exampleDB "P1" "P1" = true := by
  refine ⟨?_, isPersonInSubtree_iff_reaches db root target, by decide, by decide, by decide⟩
  intro h
  rw [isPersonInSubtree, if_pos h]

/-- Witness for C2: root equal to target answers true on a database the
graph of which never mentions that person. -/
theorem subtree_membership_correct_witness :
    isPersonInSubtree exampleDB "P9" "P9" = true :=
  (subtree_membership_correct exampleDB "P9" "P9").1 rfl

/-- C3 — The traversal always terminates: the step budget `fuelFor` is
never exhausted on any finite dataset (cycles and repeated child listings
included, since the visited set retires each dequeued identifier
permanently), and whenever no descendant chain from root reaches target
the answer is `false` — in particular on the cyclic graph `cycleDB`. -/
theorem subtree_traversal_terminates (db : DB) (root target : String) :
    (bfsLoop db target (fuelFor db [root]) [] [root]).isSome = true
    ∧ (¬reaches db root target → isPersonInSubtree db root target = false)
    ∧ isPersonInSubtree cycleDB "P1" "Z9" = false
    ∧ (bfsLoop cycleDB "Z9" (fuelFor cycleDB ["P1"]) [] ["P1"]).isSome = true := by
  refine ⟨bfsLoop_no_fuel_exhaustion db target (fuelFor db [root]) [] [root] (le_refl _),
    ?_, by decide, by decide⟩
  intro hnr
  cases hv : isPersonInSubtree db root target
  · rfl
  · exact absurd ((isPersonInSubtree_iff_reaches db root target).mp hv) hnr

/-- Witness for C3: on the cyclic graph, the unreachable target `Z9`
yields `false` (the unreachability hypothesis discharged concretely). -/
theorem subtree_traversal_terminates_witness :
    isPersonInSubtree cycleDB "P1" "Z9" = false :=
  (subtree_traversal_terminates cycleDB "P1" "Z9").2.1 fun h => by
    rcases reaches_imp_eq_or_kid cycleDB "P1" "Z9" h with h1 | h1
    · exact absurd h1 (by decide)
    · exact absurd h1 (by decide)

end AncestorTree
